import Mathlib

/-!
Verification development for the superstore data-generation engine
(Rust sources: `parallel.rs`, `streaming.rs`, `timeseries.rs`).

Shallow embedding conventions:

* The random source (`rand::StdRng`) is an external dependency, so it is
  modelled abstractly: a state type `σ`, a constructor `mkR : Nat → σ`
  standing for `StdRng::seed_from_u64`, and per-row / per-draw step
  functions threaded through exactly as the Rust code threads `&mut rng`.
* A generated row is modelled as a pair `(rowId, payload)`: the `row_id`
  field is the loop index in the source, every other field is a function
  of the random stream, collapsed into one abstract `step : σ → ρ × σ`
  call per row (the faker calls are external collaborators).
* `u64` wrapping addition is `(a + b) % 2 ^ 64` on `Nat`.
* Floating-point arithmetic of the time-series pipeline is modelled over
  `ℚ`, with `f64::sqrt` as an abstract function parameter `sqrtQ`;
  the financial-metrics calculator, whose specification claims are about
  exact square-root identities, is modelled over `ℝ`.
-/

/-- Generate `len` rows starting at row id `start`, threading the random
state through one abstract `step` call per row, exactly as the Rust row
loops thread `&mut rng`; returns the rows and the final state. -/
def genRowsFrom {σ ρ : Type} (step : σ → ρ × σ) : σ → Nat → Nat → List (Nat × ρ) × σ
  | r, _, 0 => ([], r)
  | r, start, Nat.succ n =>
      let p := step r
      let rest := genRowsFrom step p.2 (start + 1) n
      ((start, p.1) :: rest.1, rest.2)

-- =========================================================================
-- parallel.rs
-- =========================================================================

/-- Per-worker chunk size: `(count + num_threads - 1) / num_threads`
(`superstore_parallel` / `employees_parallel`, parallel.rs:133,219). -/
def parChunkSize (count numThreads : Nat) : Nat :=
  (count + numThreads - 1) / numThreads

/-- Per-worker seed derivation when a base seed is supplied:
`s.wrapping_add(thread_idx as u64)` (parallel.rs:146,232). -/
def seedFor (s i : Nat) : Nat := (s + i) % 2 ^ 64

/-- Rows produced from a seed and a half-open row-id range alone.
Used to state that a worker's output is a pure function of its derived
seed and its contiguous index range. -/
def workerRows {σ ρ : Type} (step : σ → ρ × σ) (mkR : Nat → σ)
    (sd start stop : Nat) : List (Nat × ρ) :=
  (genRowsFrom step (mkR sd) start (stop - start)).1

/-- The chunk computed by worker `i` in `superstore_parallel` /
`employees_parallel` (parallel.rs:137-193,223-260): the empty-range check
happens before the RNG is created; with a seed the RNG is
`StdRng::seed_from_u64(s.wrapping_add(i))`, without one it is an
entropy-derived source `ent i`. -/
def workerChunk {σ ρ : Type} (step : σ → ρ × σ) (mkR : Nat → σ) (ent : Nat → σ)
    (count numThreads : Nat) (seed : Option Nat) (i : Nat) : List (Nat × ρ) :=
  let cs := parChunkSize count numThreads
  let start := i * cs
  let stop := min (start + cs) count
  if count ≤ start then []
  else
    let r := match seed with
      | some s => mkR (seedFor s i)
      | none => ent i
    (genRowsFrom step r start (stop - start)).1

/-- Model of `superstore_parallel` (parallel.rs:131-199): every worker
index in `0..num_threads` computes its chunk independently and the chunks
are concatenated in worker-index order (the rayon indexed `collect`
preserves index order regardless of completion order). -/
def superstore_parallel {σ ρ : Type} (step : σ → ρ × σ) (mkR : Nat → σ)
    (ent : Nat → σ) (count numThreads : Nat) (seed : Option Nat) :
    List (Nat × ρ) :=
  ((List.range numThreads).map
    (workerChunk step mkR ent count numThreads seed)).flatten

/-- Model of `employees_parallel` (parallel.rs:217-265); identical
partitioning, seeding and concatenation structure to
`superstore_parallel`, only the per-row payload generator differs. -/
def employees_parallel {σ ρ : Type} (step : σ → ρ × σ) (mkR : Nat → σ)
    (ent : Nat → σ) (count numThreads : Nat) (seed : Option Nat) :
    List (Nat × ρ) :=
  ((List.range numThreads).map
    (workerChunk step mkR ent count numThreads seed)).flatten

-- =========================================================================
-- streaming.rs
-- =========================================================================

/-- State of `SuperstoreIterator` / `EmployeeIterator`
(streaming.rs:117-123,207-212): the random source, the requested total,
the count of rows generated so far, and the chunk size. -/
structure StreamSt (σ : Type) where
  rng : σ
  total_count : Nat
  generated : Nat
  chunk_size : Nat

/-- One `next()` call of `SuperstoreIterator` / `EmployeeIterator`
(streaming.rs:150-203,238-273): `None` once `generated ≥ total_count`;
otherwise a chunk of `min(remaining, chunk_size)` rows with row ids
`generated + i`, threading the single random source across pulls. -/
def streamNext {σ ρ : Type} (step : σ → ρ × σ) (st : StreamSt σ) :
    Option (List (Nat × ρ)) × StreamSt σ :=
  if st.total_count ≤ st.generated then (none, st)
  else
    let len := min (st.total_count - st.generated) st.chunk_size
    let g := genRowsFrom step st.rng st.generated len
    (some g.1, { st with rng := g.2, generated := st.generated + len })

/-- Pull up to `fuel` chunks from the iterator, stopping at the first
`None`.  `fuel` is an upper bound on the number of pulls the caller
makes; the Rust iterator itself is driven externally. -/
def streamChunks {σ ρ : Type} (step : σ → ρ × σ) :
    Nat → StreamSt σ → List (List (Nat × ρ))
  | 0, _ => []
  | Nat.succ fuel, st =>
      match streamNext step st with
      | (none, _) => []
      | (some c, st2) => c :: streamChunks step fuel st2

/-- Model of `SuperstoreIterator::new` via `superstore_stream`
(streaming.rs:125-145,288-294): the RNG is seeded once from the base seed
(or an entropy source `ent`), `generated` starts at 0. -/
def superstore_stream {σ : Type} (mkR : Nat → σ) (ent : σ)
    (total_count chunk_size : Nat) (seed : Option Nat) : StreamSt σ :=
  { rng := match seed with
      | some s => mkR s
      | none => ent
    total_count := total_count
    generated := 0
    chunk_size := chunk_size }

/-- Model of `EmployeeIterator::new` via `employees_stream`
(streaming.rs:214-233,308-314); identical state initialisation to
`superstore_stream`, only the per-row payload generator differs. -/
def employees_stream {σ : Type} (mkR : Nat → σ) (ent : σ)
    (total_count chunk_size : Nat) (seed : Option Nat) : StreamSt σ :=
  { rng := match seed with
      | some s => mkR s
      | none => ent
    total_count := total_count
    generated := 0
    chunk_size := chunk_size }

-- =========================================================================
-- Basic lemmas about row generation and the partition arithmetic
-- =========================================================================

theorem genRowsFrom_fst_length {σ ρ : Type} (step : σ → ρ × σ) :
    ∀ (len : Nat) (r : σ) (start : Nat),
      ((genRowsFrom step r start len).1).length = len := by
  intro len
  induction len with
  | zero => intro r start; rfl
  | succ n ih =>
      intro r start
      simp [genRowsFrom, ih]

theorem genRowsFrom_map_fst {σ ρ : Type} (step : σ → ρ × σ) :
    ∀ (len : Nat) (r : σ) (start : Nat),
      ((genRowsFrom step r start len).1).map Prod.fst = List.range' start len := by
  intro len
  induction len with
  | zero => intro r start; rfl
  | succ n ih =>
      intro r start
      simp [genRowsFrom, List.range'_succ, ih]

theorem genRowsFrom_append {σ ρ : Type} (step : σ → ρ × σ) :
    ∀ (m n : Nat) (r : σ) (start : Nat),
      genRowsFrom step r start (m + n) =
        (let g := genRowsFrom step r start m
         let h := genRowsFrom step g.2 (start + m) n
         (g.1 ++ h.1, h.2)) := by
  intro m
  induction m with
  | zero => intro n r start; simp [genRowsFrom]
  | succ k ih =>
      intro n r start
      have hsum : k + 1 + n = (k + n) + 1 := by omega
      rw [hsum]
      simp only [genRowsFrom, ih]
      have harg : start + 1 + k = start + (k + 1) := by omega
      rw [harg]
      simp

theorem parChunkSize_mul_ge (count numThreads : Nat) (h : 1 ≤ numThreads) :
    count ≤ numThreads * parChunkSize count numThreads := by
  unfold parChunkSize
  have hz : 0 < numThreads := h
  have hd := Nat.div_add_mod (count + numThreads - 1) numThreads
  have hm : (count + numThreads - 1) % numThreads < numThreads :=
    Nat.mod_lt _ hz
  generalize hq : numThreads * ((count + numThreads - 1) / numThreads) = X at *
  omega

theorem range'_glue (m t : Nat) (h : m ≤ t) :
    List.range' 0 m ++ List.range' m (t - m) = List.range' 0 t := by
  have hx := List.range'_append 0 m (t - m) 1
  simp only [Nat.zero_add, Nat.one_mul] at hx
  rw [hx]
  congr 1
  omega

theorem workerChunk_map_fst {σ ρ : Type} (step : σ → ρ × σ) (mkR : Nat → σ)
    (ent : Nat → σ) (count numThreads : Nat) (seed : Option Nat) (i : Nat) :
    (workerChunk step mkR ent count numThreads seed i).map Prod.fst =
      if count ≤ i * parChunkSize count numThreads then []
      else
        List.range' (i * parChunkSize count numThreads)
          (min (i * parChunkSize count numThreads + parChunkSize count numThreads) count
            - i * parChunkSize count numThreads) := by
  unfold workerChunk
  by_cases h : count ≤ i * parChunkSize count numThreads
  · simp [h]
  · simp only [h, if_false]
    cases seed with
    | some s => simp [genRowsFrom_map_fst]
    | none => simp [genRowsFrom_map_fst]

theorem parallel_tiling {σ ρ : Type} (step : σ → ρ × σ) (mkR : Nat → σ)
    (ent : Nat → σ) (count numThreads : Nat) (seed : Option Nat) :
    ∀ k : Nat,
      (((List.range k).map
          (workerChunk step mkR ent count numThreads seed)).flatten).map Prod.fst =
        List.range' 0 (min (k * parChunkSize count numThreads) count) := by
  intro k
  induction k with
  | zero => simp
  | succ n ih =>
      rw [List.range_succ]
      simp only [List.map_append, List.flatten_append, List.map_cons, List.map_nil,
        List.flatten_cons, List.flatten_nil, List.append_nil, List.map_append]
      rw [ih, workerChunk_map_fst]
      by_cases h : count ≤ n * parChunkSize count numThreads
      · have h1 : min (n * parChunkSize count numThreads) count = count := by omega
        have h2 : min ((n + 1) * parChunkSize count numThreads) count = count := by
          have : n * parChunkSize count numThreads ≤ (n + 1) * parChunkSize count numThreads := by
            apply Nat.mul_le_mul_right
            omega
          omega
        simp [h, h1, h2]
      · have h1 : min (n * parChunkSize count numThreads) count
            = n * parChunkSize count numThreads := by omega
        have h2 : (n + 1) * parChunkSize count numThreads
            = n * parChunkSize count numThreads + parChunkSize count numThreads := by ring
        simp only [h, if_false, h1, h2]
        exact range'_glue _ _ (by omega)

/-- Pure arithmetic shadow of the chunk-length sequence produced by the
streaming iterators: each pull takes `min remaining chunkSize` rows. -/
def chunkLens : Nat → Nat → Nat → List Nat
  | 0, _, _ => []
  | Nat.succ fuel, rem, cs =>
      if rem = 0 then []
      else min rem cs :: chunkLens fuel (rem - min rem cs) cs

theorem streamChunks_nil {σ ρ : Type} (step : σ → ρ × σ) (fuel : Nat)
    (st : StreamSt σ) (h : st.total_count ≤ st.generated) :
    streamChunks step fuel st = [] := by
  cases fuel with
  | zero => rfl
  | succ n => simp [streamChunks, streamNext, h]

theorem streamChunks_cons {σ ρ : Type} (step : σ → ρ × σ) (fuel : Nat)
    (st : StreamSt σ) (h : st.generated < st.total_count) :
    streamChunks step (fuel + 1) st =
      (genRowsFrom step st.rng st.generated
          (min (st.total_count - st.generated) st.chunk_size)).1 ::
        streamChunks step fuel
          { st with
            rng := (genRowsFrom step st.rng st.generated
              (min (st.total_count - st.generated) st.chunk_size)).2
            generated := st.generated
              + min (st.total_count - st.generated) st.chunk_size } := by
  have h2 : ¬ st.total_count ≤ st.generated := by omega
  simp [streamChunks, streamNext, h2]

theorem streamChunks_flatten {σ ρ : Type} (step : σ → ρ × σ) :
    ∀ (fuel : Nat) (st : StreamSt σ),
      1 ≤ st.chunk_size →
      st.total_count - st.generated ≤ fuel →
      (streamChunks step fuel st).flatten
        = (genRowsFrom step st.rng st.generated
            (st.total_count - st.generated)).1 := by
  intro fuel
  induction fuel with
  | zero =>
      intro st _ hf
      have hz : st.total_count - st.generated = 0 := by omega
      rw [hz]
      rfl
  | succ n ih =>
      intro st hcs hf
      by_cases h : st.total_count ≤ st.generated
      · rw [streamChunks_nil step _ st h]
        have hz : st.total_count - st.generated = 0 := by omega
        rw [hz]
        rfl
      · have hlt : st.generated < st.total_count := by omega
        have hrec := ih { st with
            rng := (genRowsFrom step st.rng st.generated
              (min (st.total_count - st.generated) st.chunk_size)).2
            generated := st.generated
              + min (st.total_count - st.generated) st.chunk_size }
          hcs (by simp; omega)
        rw [streamChunks_cons step n st hlt, List.flatten_cons, hrec]
        have hsplit : st.total_count - st.generated
            = min (st.total_count - st.generated) st.chunk_size
              + (st.total_count
                - (st.generated
                  + min (st.total_count - st.generated) st.chunk_size)) := by
          omega
        conv_rhs => rw [hsplit, genRowsFrom_append]

theorem streamChunks_lengths {σ ρ : Type} (step : σ → ρ × σ) :
    ∀ (fuel : Nat) (st : StreamSt σ),
      (streamChunks step fuel st).map List.length
        = chunkLens fuel (st.total_count - st.generated) st.chunk_size := by
  intro fuel
  induction fuel with
  | zero => intro st; rfl
  | succ n ih =>
      intro st
      by_cases h : st.total_count ≤ st.generated
      · rw [streamChunks_nil step _ st h]
        have hz : st.total_count - st.generated = 0 := by omega
        rw [hz]
        rfl
      · have hlt : st.generated < st.total_count := by omega
        rw [streamChunks_cons step n st hlt]
        have hz : ¬ (st.total_count - st.generated = 0) := by omega
        rw [List.map_cons, ih]
        simp only [chunkLens, if_neg hz, genRowsFrom_fst_length]
        congr 2
        omega

theorem streamChunks_fuel_ext {σ ρ : Type} (step : σ → ρ × σ) :
    ∀ (f1 f2 : Nat) (st : StreamSt σ),
      1 ≤ st.chunk_size →
      st.total_count - st.generated ≤ f1 →
      f1 ≤ f2 →
      streamChunks step f2 st = streamChunks step f1 st := by
  intro f1
  induction f1 with
  | zero =>
      intro f2 st hcs hf _
      have h : st.total_count ≤ st.generated := by omega
      rw [streamChunks_nil step f2 st h, streamChunks_nil step 0 st h]
  | succ n ih =>
      intro f2 st hcs hf hle
      by_cases h : st.total_count ≤ st.generated
      · rw [streamChunks_nil step f2 st h, streamChunks_nil step _ st h]
      · have hlt : st.generated < st.total_count := by omega
        obtain ⟨m, rfl⟩ : ∃ m, f2 = m + 1 := ⟨f2 - 1, by omega⟩
        rw [streamChunks_cons step m st hlt, streamChunks_cons step n st hlt]
        congr 1
        exact ih m _ (by simp; omega) (by simp; omega) (by omega)

-- =========================================================================
-- timeseries.rs : configuration structs (timeseries.rs:16-213)
-- =========================================================================

/-- Configuration for regime-switching behavior (timeseries.rs:18-23). -/
structure RegimeConfig where
  enable : Bool
  n_regimes : Nat
  regime_persistence : ℚ
  volatility_multipliers : List ℚ

/-- Configuration for jump diffusion (timeseries.rs:38-43). -/
structure JumpConfig where
  enable : Bool
  jump_probability : ℚ
  jump_mean : ℚ
  jump_stddev : ℚ

/-- Configuration for GARCH-like volatility clustering
(timeseries.rs:62-67). -/
structure GarchConfig where
  enable : Bool
  alpha : ℚ
  beta : ℚ
  omega : ℚ

/-- Configuration for mean reversion, i.e. the Ornstein-Uhlenbeck process
(timeseries.rs:82-87). -/
structure MeanReversionConfig where
  enable : Bool
  theta : ℚ
  mu : ℚ
  sigma : ℚ

/-- Configuration for intraday U-shaped volatility
(timeseries.rs:102-107). -/
structure IntradayConfig where
  enable : Bool
  opening_volatility_mult : ℚ
  midday_volatility_mult : ℚ
  closing_volatility_mult : ℚ

/-- Configuration for event windows (timeseries.rs:122-129). -/
structure EventWindowConfig where
  enable : Bool
  event_indices : List Nat
  pre_event_window : Nat
  post_event_window : Nat
  abnormal_return_mean : ℚ
  abnormal_return_stddev : ℚ

/-- Full timeseries configuration (timeseries.rs:168-188).  The `freq`
field only influences the date index, which is calendar bookkeeping
orthogonal to every claim and not modelled further. -/
structure TimeseriesConfig where
  nper : Nat
  ncol : Nat
  freq : String
  seed : Option Nat
  ar_phi : ℚ
  sigma : ℚ
  drift : ℚ
  cumulative : Bool
  use_fat_tails : Bool
  degrees_freedom : ℚ
  cross_correlation : ℚ
  regimes : RegimeConfig
  jumps : JumpConfig
  garch : GarchConfig
  mean_reversion : MeanReversionConfig
  intraday : IntradayConfig
  event_windows : EventWindowConfig
  compute_metrics : Bool

-- =========================================================================
-- timeseries.rs : random-source interface
-- =========================================================================

/-- Abstract interface to the external random/float machinery used by the
pipeline: `genF` models `rng.gen::<f64>()`, `normalSample` models drawing
from a successfully constructed `Normal(mu, sd)` distribution, and
`sqrtQ` models `f64::sqrt`.  All three are total; the fallible part of
`Normal::new` is modelled separately by `normalNew`. -/
structure RngOps (σ : Type) where
  genF : σ → ℚ × σ
  normalSample : ℚ → ℚ → σ → ℚ × σ
  sqrtQ : ℚ → ℚ

/-- Model of `rand_distr::Normal::new(mean, std_dev)` composed with the
`.expect(...)` calls of timeseries.rs.  In rand_distr 0.4.x (the version
matching the rand 0.8 APIs this crate uses) `Normal::new` accepts any
finite standard deviation, negative included, and fails only on a
non-finite one; `ℚ` has no non-finite values, so in this model the
construction always succeeds.  The `Except` shape is kept because the
Rust call site is a fallible `Result` consumed by `.expect`. -/
def normalNew (mean std_dev : ℚ) : Except String (ℚ × ℚ) :=
  .ok (mean, std_dev)

/-- Running cumulative sum, as built by the `scan`/`cum += r` loops of
timeseries.rs (lines 434-439 and 651-658). -/
def cumsum_go {α : Type} [Add α] : α → List α → List α
  | _, [] => []
  | acc, x :: xs => (acc + x) :: cumsum_go (acc + x) xs

/-- Cumulative sum starting from zero. -/
def cumsum {α : Type} [Add α] [OfNat α 0] (l : List α) : List α :=
  cumsum_go 0 l

-- =========================================================================
-- timeseries.rs : innovation sampling (timeseries.rs:231-264)
-- =========================================================================

/-- Accumulate `n` pairs of squared standard-normal draws, the chi-square
approximation loop of `sample_student_t` (timeseries.rs:240-246). -/
def chi_pairs {σ : Type} (ops : RngOps σ) : Nat → σ → ℚ × σ
  | 0, r => (0, r)
  | Nat.succ n, r =>
      let x := ops.normalSample 0 1 r
      let y := ops.normalSample 0 1 x.2
      let rest := chi_pairs ops n y.2
      (x.1 * x.1 + y.1 * y.1 + rest.1, rest.2)

/-- Model of `sample_student_t` (timeseries.rs:233-251): a standard
normal numerator over a rescaled chi-square denominator built from
`ceil(df/2)` pairs of normals. -/
def sample_student_t {σ : Type} (ops : RngOps σ) (df : ℚ) (r : σ) : ℚ × σ :=
  let z := ops.normalSample 0 1 r
  let nSamples := (Int.ceil (df / 2)).toNat
  let cp := chi_pairs ops nSamples z.2
  let chiSq := cp.1 * (df / (2 * (nSamples : ℚ)))
  (z.1 / ops.sqrtQ (chiSq / df), cp.2)

/-- Model of `sample_innovation` (timeseries.rs:254-264): Student-t
rescaled to variance `sigma^2` when fat tails are enabled and `df > 2`,
otherwise `Normal(0, sigma)` — whose construction (`normalNew`) always
succeeds for finite parameters. -/
def sample_innovation {σ : Type} (ops : RngOps σ) (sigma : ℚ)
    (use_fat_tails : Bool) (df : ℚ) (r : σ) : Except String (ℚ × σ) :=
  if use_fat_tails ∧ 2 < df then
    let scale := sigma * ops.sqrtQ ((df - 2) / df)
    let t := sample_student_t ops df r
    .ok (t.1 * scale, t.2)
  else
    match normalNew 0 sigma with
    | .error e => .error e
    | .ok p => .ok (ops.normalSample p.1 p.2 r)

-- =========================================================================
-- temporal.rs is not under src/: MarkovChain and AR1 are modelled from
-- the specification (spec.md section 4.1 / 4.2).
-- =========================================================================

/-- Modelled from the spec: `MarkovChain` state — `states` (ordered
labels), `transitionMatrix` (N x N), `currentState` (mutable cursor);
the source file `temporal.rs` is not under src/. -/
structure MarkovChain where
  transitionMatrix : List (List ℚ)
  states : List String
  currentState : Nat

/-- Scan a row's cumulative distribution for the first index whose
cumulative probability exceeds `u`. -/
def scan_pick_go (u : ℚ) : List ℚ → ℚ → Nat → Option Nat
  | [], _, _ => none
  | p :: ps, acc, i =>
      if u < acc + p then some i else scan_pick_go u ps (acc + p) (i + 1)

/-- Index selected by one `next` draw: the first state whose cumulative
probability exceeds `u`, falling back to the last state in the row. -/
def scan_pick (row : List ℚ) (u : ℚ) : Nat :=
  (scan_pick_go u row 0 0).getD (row.length - 1)

/-- Modelled from the spec: `MarkovChain::new` fails with a ConfigError
if the matrix is not square, its dimension disagrees with the label
count, or some row's sum deviates from 1 beyond tolerance (1e-9, the
tolerance quoted in spec.md section 8); on success `currentState = 0`. -/
def MarkovChain.new (matrix : List (List ℚ)) (states : List String) :
    Except String MarkovChain :=
  if matrix.length = states.length
      ∧ matrix.all (fun row => row.length == states.length)
      ∧ matrix.all (fun row => decide (|row.sum - 1| ≤ 1 / 1000000000))
  then .ok ⟨matrix, states, 0⟩
  else .error "ConfigError"

/-- Modelled from the spec: one `next(randomSource)` step — draw a
uniform, scan the current row's cumulative distribution, move the cursor
and return the label of the new state.  Total for any chain value. -/
def MarkovChain.next {σ : Type} (ops : RngOps σ) (mc : MarkovChain) (r : σ) :
    String × MarkovChain × σ :=
  let u := ops.genF r
  let row := (mc.transitionMatrix.get? mc.currentState).getD []
  let idx := scan_pick row u.1
  ((mc.states.get? idx).getD "", { mc with currentState := idx }, u.2)

/-- Modelled from the spec: `AR1` parameters. -/
structure AR1 where
  phi : ℚ
  sigma : ℚ
  mu : ℚ

/-- Modelled from the spec: `AR1::new` fails if `sigma < 0`. -/
def AR1.new (phi sigma mu : ℚ) : Except String AR1 :=
  if sigma < 0 then .error "Invalid AR1 parameters" else .ok ⟨phi, sigma, mu⟩

/-- Modelled from the spec: the running recurrence of `AR1::sample_n` —
each value is `mu + phi * (previous - mu) + eps` with `eps` a
`Normal(0, sigma)` draw, the running value starting from `mu`, consuming
exactly one normal draw per output value. -/
def AR1.sample_go {σ : Type} (ops : RngOps σ) (a : AR1) :
    Nat → ℚ → σ → List ℚ × σ
  | 0, _, r => ([], r)
  | Nat.succ n, prev, r =>
      let e := ops.normalSample 0 a.sigma r
      let x := a.mu + a.phi * (prev - a.mu) + e.1
      let rest := AR1.sample_go ops a n x e.2
      (x :: rest.1, rest.2)

/-- Modelled from the spec: `AR1::sample_n`. -/
def AR1.sample_n {σ : Type} (ops : RngOps σ) (a : AR1) (r : σ) (n : Nat) :
    List ℚ × σ :=
  AR1.sample_go ops a n a.mu r

/-- Model of `create_regime_chain` (timeseries.rs:267-286): near-diagonal
transition matrix with `regime_persistence` on the diagonal, remaining
probability split uniformly, labels `regime_i`; a failed construction is
swallowed by `.ok()` into `none`. -/
def create_regime_chain (c : RegimeConfig) : Option MarkovChain :=
  if c.enable = false then none
  else
    let n := c.n_regimes
    let pSwitch := (1 - c.regime_persistence) / ((max (n - 1) 1 : Nat) : ℚ)
    let matrix := (List.range n).map
      (fun i => (List.replicate n pSwitch).set i c.regime_persistence)
    let states := (List.range n).map (fun i => "regime_" ++ toString i)
    (MarkovChain.new matrix states).toOption

/-- Regime index recovered from a state label
(timeseries.rs:590-594): strip the leading `regime_`, parse, default 0. -/
def parse_regime (state : String) : Nat :=
  if state.startsWith "regime_" then ((state.drop 7).toNat?).getD 0 else 0

/-- One regime update of the generation loop (timeseries.rs:587-595): a
present chain advances one step and the regime index is re-parsed; an
absent chain leaves the current regime unchanged. -/
def regime_step {σ : Type} (ops : RngOps σ) :
    Option MarkovChain → Nat → σ → Option MarkovChain × Nat × σ
  | none, creg, r => (none, creg, r)
  | some mc, _, r =>
      let s := MarkovChain.next ops mc r
      (some s.2.1, parse_regime s.1, s.2.2)

/-- Volatility multiplier for the current regime
(timeseries.rs:598-605): out-of-range regime index defaults to 1.0. -/
def regime_vol_mult (c : RegimeConfig) (creg : Nat) : ℚ :=
  if c.enable then (c.volatility_multipliers.get? creg).getD 1 else 1

-- =========================================================================
-- timeseries.rs : GARCH, Ornstein-Uhlenbeck, intraday, event windows
-- =========================================================================

/-- Core loop of `apply_garch_volatility` (timeseries.rs:301-313),
carrying the running conditional variance and the previous scaled
return's square; each element is paired with the variance used to scale
it.  The initial `prevSq` argument equals the initial variance, matching
the `i = 0` branch of the Rust loop. -/
def garch_go (omega alpha beta : ℚ) (sq : ℚ → ℚ) :
    ℚ → ℚ → List ℚ → List (ℚ × ℚ)
  | _, _, [] => []
  | variance, prevSq, rr :: rs =>
      let v := omega + alpha * prevSq + beta * variance
      let scaled := rr * sq v
      (scaled, v) :: garch_go omega alpha beta sq v (scaled ^ 2) rs

/-- Model of `apply_garch_volatility` (timeseries.rs:294-314): no-op when
disabled or empty, otherwise the variance recursion is seeded at
`omega / (1 - alpha - beta)` and each innovation is scaled in place by
`sqrt(v_t)` (the abstract `sq`). -/
def apply_garch_volatility (sq : ℚ → ℚ) (g : GarchConfig)
    (innovations : List ℚ) : List ℚ :=
  if g.enable = false ∨ innovations = [] then innovations
  else
    let lrv := g.omega / (1 - g.alpha - g.beta)
    (garch_go g.omega g.alpha g.beta sq lrv lrv innovations).map Prod.fst

/-- The conditional-variance trace of `apply_garch_volatility` on a given
innovation buffer: the variance `v_t` used to scale element `t`. -/
def garch_variances (sq : ℚ → ℚ) (g : GarchConfig)
    (innovations : List ℚ) : List ℚ :=
  let lrv := g.omega / (1 - g.alpha - g.beta)
  (garch_go g.omega g.alpha g.beta sq lrv lrv innovations).map Prod.snd

/-- Loop of `generate_ornstein_uhlenbeck` (timeseries.rs:329-334): the
Euler-Maruyama update `x += theta * (mu - x) * dt + sigma * sqrt(dt) * dw`
with `dt = 1`, pushing the updated value each step. -/
def ou_go {σ : Type} (ops : RngOps σ) (theta mu sigma : ℚ) :
    Nat → ℚ → σ → List ℚ × σ
  | 0, _, r => ([], r)
  | Nat.succ n, x, r =>
      let dw := ops.normalSample 0 1 r
      let x2 := x + theta * (mu - x) * 1 + sigma * ops.sqrtQ 1 * dw.1
      let rest := ou_go ops theta mu sigma n x2 dw.2
      (x2 :: rest.1, rest.2)

/-- Model of `generate_ornstein_uhlenbeck` (timeseries.rs:318-337):
starts at the long-run mean `mu` and runs the Euler-Maruyama loop. -/
def generate_ornstein_uhlenbeck {σ : Type} (ops : RngOps σ) (n : Nat)
    (c : MeanReversionConfig) (r : σ) : List ℚ × σ :=
  ou_go ops c.theta c.mu c.sigma n c.mu r

/-- Model of `get_intraday_volatility_mult` (timeseries.rs:341-373). -/
def get_intraday_volatility_mult (index total : Nat) (c : IntradayConfig) : ℚ :=
  if c.enable = false ∨ total = 0 then 1
  else
    let t : ℚ := (index : ℚ) / (total : ℚ)
    let deviation := |t - 1 / 2| * 2
    let openingBlend := if t < 1 / 2 then 1 - t * 2 else 0
    let closingBlend := if 1 / 2 ≤ t then (t - 1 / 2) * 2 else 0
    let base := c.midday_volatility_mult
    base + openingBlend * (c.opening_volatility_mult - base)
      + closingBlend * (c.closing_volatility_mult - base)
      + deviation * (1 / 10)

/-- Per-event inner loop of `apply_event_windows`
(timeseries.rs:390-398): walk the series with its index; inside the
half-open window `[sIdx, eIdx)` draw an abnormal return and add it scaled
by the decay `1 / (1 + distance * 0.3)`; outside, leave the value and the
random state untouched. -/
def event_window_go {σ : Type} (ops : RngOps σ) (mean sd : ℚ)
    (e sIdx eIdx : Nat) : List ℚ → Nat → σ → List ℚ × σ
  | [], _, r => ([], r)
  | v :: vs, i, r =>
      if sIdx ≤ i ∧ i < eIdx then
        let x := ops.normalSample mean sd r
        let distance : ℚ := |(i : ℚ) - (e : ℚ)|
        let decay := 1 / (1 + distance * (3 / 10))
        let rest := event_window_go ops mean sd e sIdx eIdx vs (i + 1) x.2
        ((v + x.1 * decay) :: rest.1, rest.2)
      else
        let rest := event_window_go ops mean sd e sIdx eIdx vs (i + 1) r
        (v :: rest.1, rest.2)

/-- Model of `apply_event_windows` (timeseries.rs:376-400): early return
when disabled or no event indices are configured (before the
`Normal::new` construction); otherwise one `Normal::new(mean, stddev)`
construction consumed via `.expect` (always succeeding for finite
parameters, see `normalNew`) followed by a fold over the event indices,
each event touching the index window
`[event - pre, min(event + post + 1, len))`. -/
def apply_event_windows {σ : Type} (ops : RngOps σ) (c : EventWindowConfig)
    (values : List ℚ) (r : σ) : Except String (List ℚ × σ) :=
  if c.enable = false ∨ c.event_indices = [] then .ok (values, r)
  else
    match normalNew c.abnormal_return_mean c.abnormal_return_stddev with
    | .error e => .error e
    | .ok p =>
        .ok (c.event_indices.foldl
          (fun acc e =>
            event_window_go ops p.1 p.2 e (e - c.pre_event_window)
              (min (e + c.post_event_window + 1) acc.1.length) acc.1 0 acc.2)
          (values, r))

-- =========================================================================
-- timeseries.rs : the composite generation pipeline
-- =========================================================================

/-- Innovation-generation loop of `make_time_series_with_config_inner`
(timeseries.rs:586-631): per step, advance the regime chain (when
present), look up the volatility multiplier, apply the intraday
multiplier, draw the innovation, optionally add a jump, and add the
drift; the `Normal::new` constructions always succeed for finite
parameters (see `normalNew`).  `i` is the current step index, `n` the
number of remaining steps. -/
def innov_loop {σ : Type} (ops : RngOps σ) (cfg : TimeseriesConfig) :
    Nat → Nat → Option MarkovChain → Nat → σ → Except String (List ℚ × σ)
  | _, 0, _, _, r => .ok ([], r)
  | i, Nat.succ n, chain, creg, r => do
      let rs := regime_step ops chain creg r
      let volMult := regime_vol_mult cfg.regimes rs.2.1
      let intradayMult := get_intraday_volatility_mult i cfg.nper cfg.intraday
      let effectiveSigma := cfg.sigma * volMult * intradayMult
      let inn0 ← sample_innovation ops effectiveSigma cfg.use_fat_tails
        cfg.degrees_freedom rs.2.2
      let inn1 ←
        if cfg.jumps.enable then
          let u := ops.genF inn0.2
          if u.1 < cfg.jumps.jump_probability then do
            let jp ← normalNew cfg.jumps.jump_mean cfg.jumps.jump_stddev
            let j := ops.normalSample jp.1 jp.2 u.2
            pure (inn0.1 + j.1, j.2)
          else pure (inn0.1, u.2)
        else pure inn0
      let inn2 := inn1.1 + cfg.drift
      let rest ← innov_loop ops cfg (i + 1) n rs.1 rs.2.1 inn1.2
      .ok (inn2 :: rest.1, rest.2)

/-- Model of `make_time_series_with_config_inner`
(timeseries.rs:567-663), value series only (the date index of
`make_date_index` is calendar bookkeeping, orthogonal to every claim).
When mean reversion is enabled the function returns the raw
Ornstein-Uhlenbeck path immediately; otherwise it runs the innovation
loop, the GARCH pass, the AR(1) blend, the event-window pass, and the
optional cumulative-sum transform, threading one random source. -/
def make_time_series_values {σ : Type} (ops : RngOps σ)
    (cfg : TimeseriesConfig) (r : σ) : Except String (List ℚ × σ) :=
  if cfg.mean_reversion.enable then
    .ok (generate_ornstein_uhlenbeck ops cfg.nper cfg.mean_reversion r)
  else do
    let chain := create_regime_chain cfg.regimes
    let inres ← innov_loop ops cfg 0 cfg.nper chain 0 r
    let innovations2 := apply_garch_volatility ops.sqrtQ cfg.garch inres.1
    let ar1 ← AR1.new cfg.ar_phi 1 0
    let arres := AR1.sample_n ops ar1 inres.2 cfg.nper
    let values := List.zipWith
      (fun inn ar => inn * (1 - |cfg.ar_phi|) + ar * |cfg.ar_phi|)
      innovations2 arres.1
    let evres ← apply_event_windows ops cfg.event_windows values arres.2
    if cfg.cumulative then .ok (cumsum evres.1, evres.2)
    else .ok (evres.1, evres.2)

-- =========================================================================
-- timeseries.rs : financial metrics (timeseries.rs:144-164, 403-498)
-- =========================================================================

/-- Financial metrics output (timeseries.rs:146-152).  The Rust field
`sharpe_ratio` is shortened to `sharpe` here; everything else keeps its
source name. -/
structure FinancialMetrics where
  alpha : ℝ
  beta : ℝ
  sharpe : ℝ
  volatility : ℝ
  max_drawdown : ℝ

open Classical in
/-- Maximum peak-to-trough decline of a running cumulative series
(timeseries.rs:441-451): the peak starts at negative infinity, modelled
by an `Option` that is replaced by the first value seen. -/
noncomputable def max_drawdown_of (cumulative : List ℝ) : ℝ :=
  (cumulative.foldl
    (fun (st : ℝ × Option ℝ) val =>
      let peak := match st.2 with
        | none => val
        | some p => if p < val then val else p
      let dd := peak - val
      (if st.1 < dd then dd else st.1, some peak))
    (0, none)).1

open Classical in
/-- Model of `calculate_financial_metrics` (timeseries.rs:403-498) over
`ℝ` (exact real arithmetic in place of `f64`): sample variance with the
`max(n-1, 1)` denominator the code uses, annualized volatility
`sqrt(variance) * sqrt(252)`, Sharpe ratio guarded by `variance > 0`,
max drawdown of the cumulative sum, and beta/alpha against an optional
market series of equal length (> 1), with beta defaulting to 1 when the
market variance is not positive. -/
noncomputable def calculate_financial_metrics (returns : List ℝ)
    (market_returns : Option (List ℝ)) (risk_free_rate : ℝ) :
    FinancialMetrics :=
  match returns with
  | [] => ⟨0, 1, 0, 0, 0⟩
  | _ :: _ =>
    let n : ℝ := returns.length
    let mean_return := returns.sum / n
    let variance :=
      (returns.map (fun r => (r - mean_return) ^ 2)).sum / max (n - 1) 1
    let volatility := Real.sqrt variance * Real.sqrt 252
    let excess_return := mean_return - risk_free_rate / 252
    let sharpe :=
      if 0 < variance then excess_return / Real.sqrt variance * Real.sqrt 252
      else 0
    let mdd := max_drawdown_of (cumsum returns)
    let ab : ℝ × ℝ :=
      match market_returns with
      | some market =>
        if market.length = returns.length ∧ 1 < market.length then
          let market_mean := market.sum / (market.length : ℝ)
          let covariance :=
            (List.zipWith (fun r m => (r - mean_return) * (m - market_mean))
              returns market).sum / (n - 1)
          let market_variance :=
            (market.map (fun m => (m - market_mean) ^ 2)).sum / max (n - 1) 1
          let b := if 0 < market_variance then covariance / market_variance
            else 1
          let a := mean_return - risk_free_rate / 252
            - b * (market_mean - risk_free_rate / 252)
          (a * 252, b)
        else (0, 1)
      | none => (0, 1)
    ⟨ab.1, ab.2, sharpe, volatility, mdd⟩

-- =========================================================================
-- timeseries.rs : get_time_series_with_config (timeseries.rs:666-735)
-- =========================================================================

/-- Column labels: the first `k` letters of the alphabet
(timeseries.rs:219-221). -/
def get_cols (k : Nat) : List Char :=
  "ABCDEFGHIJKLMNOPQRSTUVWXYZ".toList.take k

/-- One generated column (timeseries.rs:737-741), values over `ℚ`. -/
structure TimeSeriesColumn where
  name : Char
  values : List ℚ

/-- Return series used for the metrics of a column
(timeseries.rs:699-704): first differences when the series is cumulative
and long enough, otherwise the values themselves. -/
def returns_of (cfg : TimeseriesConfig) (values : List ℚ) : List ℚ :=
  if cfg.cumulative ∧ 1 < values.length then
    List.zipWith (fun a b => b - a) values values.tail
  else values

open Classical in
/-- Column loop of `get_time_series_with_config`
(timeseries.rs:684-724): per column, generate a series, blend it with
the common factor when cross-correlation is positive, and (when metrics
are requested) compute its financial metrics, the first column acting as
the market proxy for the later ones. -/
noncomputable def ts_cols_loop {σ : Type} (ops : RngOps σ)
    (cfg : TimeseriesConfig) (common : List ℚ) :
    List Char → Nat → Option (List ℝ) → σ →
    Except String (List TimeSeriesColumn × List (Char × FinancialMetrics) × σ)
  | [], _, _, r => .ok ([], [], r)
  | c :: cs, colIdx, market, r => do
      let vres ← make_time_series_values ops cfg r
      let values :=
        if 0 < cfg.cross_correlation ∧ common ≠ [] then
          List.zipWith
            (fun v f => (1 - ops.sqrtQ cfg.cross_correlation) * v
              + ops.sqrtQ cfg.cross_correlation * f) vres.1 common
        else vres.1
      if cfg.compute_metrics then
        let returns := returns_of cfg values
        let returnsR : List ℝ := returns.map Rat.cast
        let market2 := if colIdx = 0 then some returnsR else market
        let m := calculate_financial_metrics returnsR
          (if 0 < colIdx then market else none) (2 / 100)
        let rest ← ts_cols_loop ops cfg common cs (colIdx + 1) market2 vres.2
        .ok (⟨c, values⟩ :: rest.1, (c, m) :: rest.2.1, rest.2.2)
      else
        let rest ← ts_cols_loop ops cfg common cs (colIdx + 1) market vres.2
        .ok (⟨c, values⟩ :: rest.1, rest.2.1, rest.2.2)

open Classical in
/-- Model of `get_time_series_with_config` (timeseries.rs:666-735): seed
the single random source from the optional seed (`ent` standing for
`StdRng::from_entropy`), generate the shared common factor when
cross-correlation is positive, then run the column loop; metrics are
attached only when requested. -/
noncomputable def get_time_series_with_config {σ : Type} (ops : RngOps σ)
    (mkR : Nat → σ) (ent : σ) (cfg : TimeseriesConfig) :
    Except String (List TimeSeriesColumn × Option (List (Char × FinancialMetrics))) := do
  let r0 := match cfg.seed with
    | some s => mkR s
    | none => ent
  let cols := get_cols cfg.ncol
  let cres ←
    if 0 < cfg.cross_correlation then make_time_series_values ops cfg r0
    else pure (([] : List ℚ), r0)
  let lres ← ts_cols_loop ops cfg cres.1 cols 0 none cres.2
  .ok (lres.1, if cfg.compute_metrics then some lres.2.1 else none)

-- =========================================================================
-- Chunk-count arithmetic helper
-- =========================================================================

theorem chunkLens_length (cs : Nat) (hcs : 1 ≤ cs) :
    ∀ (fuel rem : Nat), rem ≤ fuel →
      (chunkLens fuel rem cs).length = (rem + cs - 1) / cs := by
  intro fuel
  induction fuel with
  | zero =>
      intro rem hf
      have hz : rem = 0 := by omega
      subst hz
      simp only [chunkLens, List.length_nil]
      symm
      exact Nat.div_eq_of_lt (by omega)
  | succ n ih =>
      intro rem hf
      by_cases h : rem = 0
      · subst h
        simp only [chunkLens, if_pos rfl, List.length_nil]
        symm
        exact Nat.div_eq_of_lt (by omega)
      · have h1 : 1 ≤ rem := by omega
        simp only [chunkLens, if_neg h, List.length_cons]
        rw [ih (rem - min rem cs) (by omega)]
        by_cases h2 : rem ≤ cs
        · have hmin : min rem cs = rem := by omega
          rw [hmin]
          have hz0 : (rem - rem + cs - 1) / cs = 0 :=
            Nat.div_eq_of_lt (by omega)
          have hone : (rem + cs - 1) / cs = 1 :=
            Nat.div_eq_of_lt_le (by omega) (by omega)
          omega
        · have hmin : min rem cs = cs := by omega
          rw [hmin]
          have ha : rem - cs + cs - 1 = rem - 1 := by omega
          have hb : rem + cs - 1 = rem - 1 + cs := by omega
          rw [ha, hb, Nat.add_div_right _ (by omega : 0 < cs)]

-- =========================================================================
-- Claims C1, C2, C6, C7, C10
-- =========================================================================

/-- C1: for `superstore_parallel` and `employees_parallel` with a
supplied base seed `s` and a fixed worker count, worker `i`'s random
source is seeded with `s` wrapping-added to `i`, the rows for worker
`i`'s contiguous index range are a pure function of `s`, `i` and that
range alone (`workerRows` takes nothing else), and two calls with
identical `(count, seed, worker count)` produce identical output — in
particular the entropy source is never consulted. -/
theorem C1_parallel_seed_purity {σ ρ : Type} (step : σ → ρ × σ)
    (mkR : Nat → σ) (ent1 ent2 : Nat → σ) (count numThreads s i : Nat)
    (_hi : i < numThreads) :
    workerChunk step mkR ent1 count numThreads (some s) i
        = workerRows step mkR (seedFor s i)
            (i * parChunkSize count numThreads)
            (min (i * parChunkSize count numThreads
              + parChunkSize count numThreads) count)
      ∧ seedFor s i = (s + i) % 2 ^ 64
      ∧ superstore_parallel step mkR ent1 count numThreads (some s)
          = superstore_parallel step mkR ent2 count numThreads (some s)
      ∧ employees_parallel step mkR ent1 count numThreads (some s)
          = employees_parallel step mkR ent2 count numThreads (some s) := by
  refine ⟨?_, rfl, rfl, rfl⟩
  unfold workerChunk workerRows
  by_cases h : count ≤ i * parChunkSize count numThreads
  · have hz : min (i * parChunkSize count numThreads
        + parChunkSize count numThreads) count
        - i * parChunkSize count numThreads = 0 := by omega
    simp [h, hz, genRowsFrom]
  · simp [h]

/-- C1 witness at a concrete instantiation. -/
theorem C1_parallel_seed_purity_witness :
    (1 : Nat) < 3
      ∧ (workerChunk (fun n => (n, n + 1)) id (fun j => j + 1000) 10 3
            (some 5) 1
          = workerRows (fun n => (n, n + 1)) id (seedFor 5 1)
              (1 * parChunkSize 10 3)
              (min (1 * parChunkSize 10 3 + parChunkSize 10 3) 10)
        ∧ seedFor 5 1 = (5 + 1) % 2 ^ 64
        ∧ superstore_parallel (fun n => (n, n + 1)) id (fun j => j + 1000)
              10 3 (some 5)
            = superstore_parallel (fun n => (n, n + 1)) id (fun j => j + 2000)
              10 3 (some 5)
        ∧ employees_parallel (fun n => (n, n + 1)) id (fun j => j + 1000)
              10 3 (some 5)
            = employees_parallel (fun n => (n, n + 1)) id (fun j => j + 2000)
              10 3 (some 5)) :=
  ⟨by decide,
   C1_parallel_seed_purity (fun n => (n, n + 1)) id (fun j => j + 1000)
     (fun j => j + 2000) 10 3 5 1 (by decide)⟩

/-- C7: `superstore_parallel` (and `employees_parallel`) returns exactly
`count` rows concatenated in worker-index order, the `i`-th row carrying
`row_id = i`; the model's concatenation order is the deterministic
worker-index order, independent of scheduling. -/
theorem C7_parallel_row_ids {σ ρ : Type} (step : σ → ρ × σ)
    (mkR : Nat → σ) (ent : Nat → σ) (count numThreads : Nat)
    (seed : Option Nat) (h : 1 ≤ numThreads) :
    (superstore_parallel step mkR ent count numThreads seed).map Prod.fst
        = List.range count
      ∧ (superstore_parallel step mkR ent count numThreads seed).length
        = count
      ∧ (employees_parallel step mkR ent count numThreads seed).map Prod.fst
        = List.range count
      ∧ (employees_parallel step mkR ent count numThreads seed).length
        = count := by
  have key := parallel_tiling step mkR ent count numThreads seed numThreads
  have hge := parChunkSize_mul_ge count numThreads h
  have hmin : min (numThreads * parChunkSize count numThreads) count
      = count := by omega
  rw [hmin] at key
  have hmap : (superstore_parallel step mkR ent count numThreads seed).map
      Prod.fst = List.range count := by
    rw [superstore_parallel, key, List.range_eq_range']
  have hlen : (superstore_parallel step mkR ent count numThreads seed).length
      = count := by
    have := congrArg List.length hmap
    simpa using this
  exact ⟨hmap, hlen, hmap, hlen⟩

/-- C7 witness at a concrete instantiation. -/
theorem C7_parallel_row_ids_witness :
    (1 : Nat) ≤ 4
      ∧ ((superstore_parallel (fun n => (n, n * 2)) id (fun j => j) 11 4
            (some 42)).map Prod.fst = List.range 11
        ∧ (superstore_parallel (fun n => (n, n * 2)) id (fun j => j) 11 4
            (some 42)).length = 11
        ∧ (employees_parallel (fun n => (n, n * 2)) id (fun j => j) 11 4
            (some 42)).map Prod.fst = List.range 11
        ∧ (employees_parallel (fun n => (n, n * 2)) id (fun j => j) 11 4
            (some 42)).length = 11) :=
  ⟨by decide,
   C7_parallel_row_ids (fun n => (n, n * 2)) id (fun j => j) 11 4 (some 42)
     (by decide)⟩

/-- C2: the concatenation of all chunks of `superstore_stream` is
invariant in the chunk size (for chunk sizes at least 1) and equals the
single non-chunked generation from the same seed — the row sequence
generated in one pass from `StdRng::seed_from_u64(s)`; likewise for
`employees_stream`. -/
theorem C2_stream_chunk_invariance {σ ρ : Type} (step : σ → ρ × σ)
    (mkR : Nat → σ) (ent : σ) (total c1 c2 s : Nat)
    (h1 : 1 ≤ c1) (h2 : 1 ≤ c2) :
    (streamChunks step total
          (superstore_stream mkR ent total c1 (some s))).flatten
        = (streamChunks step total
            (superstore_stream mkR ent total c2 (some s))).flatten
      ∧ (streamChunks step total
          (superstore_stream mkR ent total c1 (some s))).flatten
        = (genRowsFrom step (mkR s) 0 total).1
      ∧ (streamChunks step total
          (employees_stream mkR ent total c1 (some s))).flatten
        = (streamChunks step total
            (employees_stream mkR ent total c2 (some s))).flatten := by
  have key : ∀ c : Nat, 1 ≤ c →
      (streamChunks step total
          (superstore_stream mkR ent total c (some s))).flatten
        = (genRowsFrom step (mkR s) 0 total).1 := by
    intro c hc
    have := streamChunks_flatten step total
      (superstore_stream mkR ent total c (some s)) hc (by simp [superstore_stream])
    simpa [superstore_stream] using this
  refine ⟨?_, key c1 h1, ?_⟩
  · rw [key c1 h1, key c2 h2]
  · have key2 : ∀ c : Nat, 1 ≤ c →
        (streamChunks step total
            (employees_stream mkR ent total c (some s))).flatten
          = (genRowsFrom step (mkR s) 0 total).1 := by
      intro c hc
      have := streamChunks_flatten step total
        (employees_stream mkR ent total c (some s)) hc (by simp [employees_stream])
      simpa [employees_stream] using this
    rw [key2 c1 h1, key2 c2 h2]

/-- C2 witness at a concrete instantiation. -/
theorem C2_stream_chunk_invariance_witness :
    (1 : Nat) ≤ 3 ∧ (1 : Nat) ≤ 4
      ∧ ((streamChunks (fun n => (n, n + 1)) 10
            (superstore_stream id 0 10 3 (some 9))).flatten
          = (streamChunks (fun n => (n, n + 1)) 10
              (superstore_stream id 0 10 4 (some 9))).flatten
        ∧ (streamChunks (fun n => (n, n + 1)) 10
            (superstore_stream id 0 10 3 (some 9))).flatten
          = (genRowsFrom (fun n => (n, n + 1)) (id 9) 0 10).1
        ∧ (streamChunks (fun n => (n, n + 1)) 10
            (employees_stream id 0 10 3 (some 9))).flatten
          = (streamChunks (fun n => (n, n + 1)) 10
              (employees_stream id 0 10 4 (some 9))).flatten) :=
  ⟨by decide, by decide,
   C2_stream_chunk_invariance (fun n => (n, n + 1)) id 0 10 3 4 9
     (by decide) (by decide)⟩

/-- C6: `superstore_stream(100, 30, Some(7))` yields chunks of lengths
exactly `[30, 30, 30, 10]`; in general every pull on a non-exhausted
iterator yields `min(chunk_size, remaining)` rows, and for any chunk
size at least 1 the total number of rows over all pulls equals
`total_count`. -/
theorem C6_stream_chunk_shapes {σ ρ : Type} (step : σ → ρ × σ)
    (mkR : Nat → σ) (ent : σ) (total cs s : Nat) (hcs : 1 ≤ cs) :
    (streamChunks step 100
          (superstore_stream mkR ent 100 30 (some 7))).map List.length
        = [30, 30, 30, 10]
      ∧ ((streamChunks step total
          (superstore_stream mkR ent total cs (some s))).flatten).length
        = total
      ∧ (∀ st : StreamSt σ, st.generated < st.total_count →
          ∃ c st2, streamNext step st = (some c, st2)
            ∧ c.length = min st.chunk_size (st.total_count - st.generated)) := by
  refine ⟨?_, ?_, ?_⟩
  · rw [streamChunks_lengths]
    rfl
  · rw [streamChunks_flatten step total
      (superstore_stream mkR ent total cs (some s)) hcs
      (by simp [superstore_stream])]
    simp [superstore_stream, genRowsFrom_fst_length]
  · intro st hst
    have h2 : ¬ st.total_count ≤ st.generated := by omega
    refine ⟨(genRowsFrom step st.rng st.generated
        (min (st.total_count - st.generated) st.chunk_size)).1,
      { st with
        rng := (genRowsFrom step st.rng st.generated
          (min (st.total_count - st.generated) st.chunk_size)).2
        generated := st.generated
          + min (st.total_count - st.generated) st.chunk_size }, ?_, ?_⟩
    · rw [streamNext, if_neg h2]
    · rw [genRowsFrom_fst_length]
      exact Nat.min_comm _ _

/-- C6 witness at a concrete instantiation. -/
theorem C6_stream_chunk_shapes_witness :
    (1 : Nat) ≤ 30
      ∧ ((streamChunks (fun n => (n, n + 1)) 100
            (superstore_stream id 0 100 30 (some 7))).map List.length
          = [30, 30, 30, 10]
        ∧ ((streamChunks (fun n => (n, n + 1)) 100
              (superstore_stream id 0 100 30 (some 7))).flatten).length = 100
        ∧ (∀ st : StreamSt Nat, st.generated < st.total_count →
            ∃ c st2, streamNext (fun n => (n, n + 1)) st = (some c, st2)
              ∧ c.length = min st.chunk_size (st.total_count - st.generated))) :=
  ⟨by decide,
   C6_stream_chunk_shapes (fun n => (n, n + 1)) id 0 100 30 7 (by decide)⟩

/-- C10: for `superstore_stream` and `employees_stream` with
`chunk_size ≥ 1` the iterator terminates, yielding exactly
`ceil(total_count / chunk_size)` chunks, after which any extra pulls
yield nothing (`streamNext` is `none` on every exhausted state); with
`chunk_size = 0` and `total_count > 0`, `next()` returns `Some` of an
empty chunk and leaves the state unchanged, so the iterator never
returns `None`. -/
theorem C10_stream_termination {σ ρ : Type} (step : σ → ρ × σ)
    (mkR : Nat → σ) (ent : σ) (total cs s extra : Nat) :
    (1 ≤ cs →
      (streamChunks step total
            (superstore_stream mkR ent total cs (some s))).length
          = (total + cs - 1) / cs
        ∧ streamChunks step (total + extra)
            (superstore_stream mkR ent total cs (some s))
          = streamChunks step total
            (superstore_stream mkR ent total cs (some s))
        ∧ (streamChunks step total
            (employees_stream mkR ent total cs (some s))).length
          = (total + cs - 1) / cs)
      ∧ (∀ st : StreamSt σ, st.total_count ≤ st.generated →
          streamNext step st = (none, st))
      ∧ (cs = 0 → 0 < total →
          streamNext step (superstore_stream mkR ent total cs (some s))
            = (some [], superstore_stream mkR ent total cs (some s))
          ∧ streamNext step (employees_stream mkR ent total cs (some s))
            = (some [], employees_stream mkR ent total cs (some s))) := by
  refine ⟨fun hcs => ⟨?_, ?_, ?_⟩, ?_, ?_⟩
  · have hl := streamChunks_lengths step total
      (superstore_stream mkR ent total cs (some s))
    have := congrArg List.length hl
    simp only [List.length_map] at this
    rw [this]
    simpa [superstore_stream] using
      chunkLens_length cs hcs total (total - 0) (by omega)
  · exact streamChunks_fuel_ext step total (total + extra)
      (superstore_stream mkR ent total cs (some s)) hcs
      (by simp [superstore_stream]) (by omega)
  · have hl := streamChunks_lengths step total
      (employees_stream mkR ent total cs (some s))
    have := congrArg List.length hl
    simp only [List.length_map] at this
    rw [this]
    simpa [employees_stream] using
      chunkLens_length cs hcs total (total - 0) (by omega)
  · intro st h
    rw [streamNext, if_pos h]
  · intro h0 htot
    subst h0
    have hneg : ¬ (total ≤ 0) := by omega
    constructor
    · rw [streamNext]
      simp [superstore_stream, hneg, genRowsFrom]
    · rw [streamNext]
      simp [employees_stream, hneg, genRowsFrom]

/-- C10 witness at a concrete instantiation. -/
theorem C10_stream_termination_witness :
    ((1 : Nat) ≤ 4 →
      (streamChunks (fun n => (n, n + 1)) 9
            (superstore_stream id 0 9 4 (some 2))).length
          = (9 + 4 - 1) / 4
        ∧ streamChunks (fun n => (n, n + 1)) (9 + 5)
            (superstore_stream id 0 9 4 (some 2))
          = streamChunks (fun n => (n, n + 1)) 9
            (superstore_stream id 0 9 4 (some 2))
        ∧ (streamChunks (fun n => (n, n + 1)) 9
            (employees_stream id 0 9 4 (some 2))).length
          = (9 + 4 - 1) / 4)
      ∧ (∀ st : StreamSt Nat, st.total_count ≤ st.generated →
          streamNext (fun n => (n, n + 1)) st = (none, st))
      ∧ ((4 : Nat) = 0 → 0 < 9 →
          streamNext (fun n => (n, n + 1))
              (superstore_stream id 0 9 4 (some 2))
            = (some [], superstore_stream id 0 9 4 (some 2))
          ∧ streamNext (fun n => (n, n + 1))
              (employees_stream id 0 9 4 (some 2))
            = (some [], employees_stream id 0 9 4 (some 2))) :=
  C10_stream_termination (fun n => (n, n + 1)) id 0 9 4 2 5

-- =========================================================================
-- GARCH lemmas for C3
-- =========================================================================

theorem garch_go_length (omega alpha beta : ℚ) (sq : ℚ → ℚ) :
    ∀ (l : List ℚ) (v p : ℚ),
      (garch_go omega alpha beta sq v p l).length = l.length := by
  intro l
  induction l with
  | nil => intro v p; rfl
  | cons rr rs ih => intro v p; simp [garch_go, ih]

theorem garch_go_head (omega alpha beta : ℚ) (sq : ℚ → ℚ)
    (l : List ℚ) (v p : ℚ) (h : l ≠ []) :
    ((garch_go omega alpha beta sq v p l).map Prod.snd).getD 0 0
      = omega + alpha * p + beta * v := by
  cases l with
  | nil => exact absurd rfl h
  | cons rr rs => simp [garch_go]

theorem garch_go_scale (omega alpha beta : ℚ) (sq : ℚ → ℚ) :
    ∀ (l : List ℚ) (v p : ℚ) (t : Nat), t < l.length →
      ((garch_go omega alpha beta sq v p l).map Prod.fst).getD t 0
        = l.getD t 0
          * sq (((garch_go omega alpha beta sq v p l).map Prod.snd).getD t 0) := by
  intro l
  induction l with
  | nil => intro v p t ht; simp at ht
  | cons rr rs ih =>
      intro v p t ht
      cases t with
      | zero => simp [garch_go]
      | succ k =>
          simp only [garch_go, List.map_cons, List.getD_cons_succ]
          exact ih _ _ k (by simpa using ht)

theorem garch_go_step (omega alpha beta : ℚ) (sq : ℚ → ℚ) :
    ∀ (l : List ℚ) (v p : ℚ) (t : Nat), t + 1 < l.length →
      ((garch_go omega alpha beta sq v p l).map Prod.snd).getD (t + 1) 0
        = omega
          + alpha * (((garch_go omega alpha beta sq v p l).map Prod.fst).getD t 0) ^ 2
          + beta * ((garch_go omega alpha beta sq v p l).map Prod.snd).getD t 0 := by
  intro l
  induction l with
  | nil => intro v p t ht; simp at ht
  | cons rr rs ih =>
      intro v p t ht
      cases t with
      | zero =>
          have hrs : rs ≠ [] := by
            cases rs with
            | nil => simp at ht
            | cons a as => simp
          simp only [garch_go, List.map_cons, List.getD_cons_succ,
            List.getD_cons_zero]
          rw [garch_go_head omega alpha beta sq rs _ _ hrs]
      | succ k =>
          simp only [garch_go, List.map_cons, List.getD_cons_succ]
          exact ih _ _ k (by simpa using ht)

/-- Closed form for the conditional variance of the zero-input GARCH
run with `omega = 1/20`, `alpha = 1/10`, `beta = 17/20`. -/
def garchZeroClosed (t : Nat) : ℚ := 1 / 3 + (2 / 3) * (17 / 20) ^ t

theorem garchZeroClosed_step (t : Nat) :
    1 / 20 + (17 / 20) * garchZeroClosed t = garchZeroClosed (t + 1) := by
  unfold garchZeroClosed
  rw [pow_succ]
  ring

theorem garch_go_zero_trace (sq : ℚ → ℚ) :
    ∀ (n t : Nat),
      (garch_go (1/20) (1/10) (17/20) sq (garchZeroClosed t) 0
          (List.replicate n 0)).map Prod.snd
        = (List.range' (t + 1) n).map garchZeroClosed := by
  intro n
  induction n with
  | zero => intro t; rfl
  | succ m ih =>
      intro t
      rw [List.replicate_succ]
      simp only [garch_go, List.map_cons, mul_zero, add_zero, zero_mul]
      rw [List.range'_succ, List.map_cons]
      rw [garchZeroClosed_step t]
      congr 1
      have h02 : (0 : ℚ) ^ 2 = 0 := by norm_num
      rw [h02, ih (t + 1)]

theorem garch_variances_zero (sq : ℚ → ℚ) (n : Nat) :
    garch_variances sq ⟨true, 1/10, 17/20, 1/20⟩ (List.replicate (n + 1) 0)
      = (List.range (n + 1)).map garchZeroClosed := by
  unfold garch_variances
  simp only
  have hlrv : (1 : ℚ) / 20 / (1 - 1/10 - 17/20) = 1 := by norm_num
  rw [hlrv, List.replicate_succ]
  simp only [garch_go, List.map_cons, zero_mul, mul_one]
  have hz : ((0 : ℚ)) ^ 2 = 0 := by norm_num
  rw [hz]
  have hv : (1 : ℚ) / 20 + 1 / 10 + 17 / 20 = garchZeroClosed 0 := by
    unfold garchZeroClosed
    norm_num
  rw [hv, garch_go_zero_trace sq n 0]
  rw [List.range_eq_range', List.range'_succ, List.map_cons]

theorem getD_map_range (f : Nat → ℚ) (n t : Nat) (h : t < n) :
    ((List.range n).map f).getD t 0 = f t := by
  simp [List.getD, List.getElem?_map, List.getElem?_range, h]

theorem garchZeroClosed_far50 :
    (1 : ℚ) / 1000000 < |garchZeroClosed 50 - 1| := by
  have hp1 : ((17 : ℚ) / 20) ^ 50 ≤ (17 / 20) ^ 1 :=
    pow_le_pow_of_le_one (by norm_num) (by norm_num) (by norm_num)
  rw [pow_one] at hp1
  have hp0 : (0 : ℚ) ≤ (17 / 20) ^ 50 := by positivity
  unfold garchZeroClosed
  rw [abs_sub_comm, abs_of_nonneg (by linarith)]
  linarith

theorem garchZeroClosed_close (t : Nat) (h83 : 83 ≤ t) :
    |garchZeroClosed t - 1 / 3| < 1 / 1000000 := by
  have hmono : ((17 : ℚ) / 20) ^ t ≤ (17 / 20) ^ 83 :=
    pow_le_pow_of_le_one (by norm_num) (by norm_num) h83
  have hp0 : (0 : ℚ) ≤ (17 / 20) ^ t := by positivity
  have hbound : ((2 : ℚ) / 3) * (17 / 20) ^ 83 < 1 / 1000000 := by norm_num
  unfold garchZeroClosed
  rw [abs_of_nonneg (by linarith)]
  linarith

/-- C3 counterexample: with `omega = 0.05`, `alpha = 0.1`, `beta = 0.85`
and an all-zero innovation buffer of length 100, the conditional
variance at `t = 50` is NOT within 1e-6 of 1.0 — the zero-return
recursion `v_t = omega + beta * v_{t-1}` heads to `omega / (1 - beta)
= 1/3`, so `v_50` is more than 1e-6 (indeed about 2/3) away from 1. -/
theorem C3_garch_convergence_counterexample :
    (1 : ℚ) / 1000000 <
      |(garch_variances (fun q => q) ⟨true, 1/10, 17/20, 1/20⟩
          (List.replicate 100 0)).getD 50 0 - 1| := by
  have h := garch_variances_zero (fun q => q) 99
  have h100 : (99 : Nat) + 1 = 100 := by norm_num
  rw [h100] at h
  rw [h, getD_map_range garchZeroClosed 100 50 (by norm_num)]
  exact garchZeroClosed_far50

/-- C3 (amended): the GARCH(1,1) pass seeds the conditional variance at
the long-run variance `omega / (1 - alpha - beta)` (when the
denominator is nonzero, the first variance used equals the long-run
variance), updates it as `v_t = omega + alpha * r_{t-1}^2 +
beta * v_{t-1}` with `r_{t-1}` the already-scaled previous innovation,
and scales each innovation by `sqrt(v_t)` in place; with `omega = 0.05,
alpha = 0.1, beta = 0.85` and an all-zero innovation buffer of length
100, `v_t` converges to `omega / (1 - beta) = 1/3` (not 1.0) within
±1e-6 from `t = 83` on (not by `t = 50`). -/
theorem C3_garch_recursion_amended (g : GarchConfig) (sq : ℚ → ℚ)
    (l : List ℚ) (henable : g.enable = true) (hne : l ≠ [])
    (hden : 1 - g.alpha - g.beta ≠ 0) :
    (garch_variances sq g l).getD 0 0 = g.omega / (1 - g.alpha - g.beta)
      ∧ (∀ t, t + 1 < l.length →
          (garch_variances sq g l).getD (t + 1) 0
            = g.omega
              + g.alpha * ((apply_garch_volatility sq g l).getD t 0) ^ 2
              + g.beta * (garch_variances sq g l).getD t 0)
      ∧ (∀ t, t < l.length →
          (apply_garch_volatility sq g l).getD t 0
            = l.getD t 0 * sq ((garch_variances sq g l).getD t 0))
      ∧ (∀ t, 83 ≤ t → t < 100 →
          |(garch_variances sq ⟨true, 1/10, 17/20, 1/20⟩
              (List.replicate 100 0)).getD t 0 - 1/3| < 1/1000000) := by
  have happly : apply_garch_volatility sq g l
      = (garch_go g.omega g.alpha g.beta sq
          (g.omega / (1 - g.alpha - g.beta))
          (g.omega / (1 - g.alpha - g.beta)) l).map Prod.fst := by
    unfold apply_garch_volatility
    rw [if_neg]
    push_neg
    exact ⟨by rw [henable]; simp, hne⟩
  refine ⟨?_, ?_, ?_, ?_⟩
  · unfold garch_variances
    rw [garch_go_head _ _ _ _ _ _ _ hne]
    field_simp
    ring
  · intro t ht
    unfold garch_variances
    rw [happly]
    exact garch_go_step g.omega g.alpha g.beta sq l _ _ t ht
  · intro t ht
    unfold garch_variances
    rw [happly]
    exact garch_go_scale g.omega g.alpha g.beta sq l _ _ t ht
  · intro t h83 h100
    have h := garch_variances_zero sq 99
    have h99 : (99 : Nat) + 1 = 100 := by norm_num
    rw [h99] at h
    rw [h, getD_map_range garchZeroClosed 100 t h100]
    exact garchZeroClosed_close t h83

/-- C3 (amended) witness at a concrete instantiation. -/
theorem C3_garch_recursion_amended_witness :
    ((⟨true, 1/10, 17/20, 1/20⟩ : GarchConfig).enable = true
      ∧ ([(1 : ℚ), 2] ≠ [])
      ∧ (1 - (⟨true, 1/10, 17/20, 1/20⟩ : GarchConfig).alpha
          - (⟨true, 1/10, 17/20, 1/20⟩ : GarchConfig).beta ≠ 0))
      ∧ ((garch_variances (fun q => q) ⟨true, 1/10, 17/20, 1/20⟩
            [(1 : ℚ), 2]).getD 0 0
          = (⟨true, 1/10, 17/20, 1/20⟩ : GarchConfig).omega
            / (1 - (⟨true, 1/10, 17/20, 1/20⟩ : GarchConfig).alpha
              - (⟨true, 1/10, 17/20, 1/20⟩ : GarchConfig).beta)
        ∧ (∀ t, t + 1 < ([(1 : ℚ), 2] : List ℚ).length →
            (garch_variances (fun q => q) ⟨true, 1/10, 17/20, 1/20⟩
                [(1 : ℚ), 2]).getD (t + 1) 0
              = (⟨true, 1/10, 17/20, 1/20⟩ : GarchConfig).omega
                + (⟨true, 1/10, 17/20, 1/20⟩ : GarchConfig).alpha
                  * ((apply_garch_volatility (fun q => q)
                      ⟨true, 1/10, 17/20, 1/20⟩ [(1 : ℚ), 2]).getD t 0) ^ 2
                + (⟨true, 1/10, 17/20, 1/20⟩ : GarchConfig).beta
                  * (garch_variances (fun q => q) ⟨true, 1/10, 17/20, 1/20⟩
                      [(1 : ℚ), 2]).getD t 0)
        ∧ (∀ t, t < ([(1 : ℚ), 2] : List ℚ).length →
            (apply_garch_volatility (fun q => q) ⟨true, 1/10, 17/20, 1/20⟩
                [(1 : ℚ), 2]).getD t 0
              = ([(1 : ℚ), 2] : List ℚ).getD t 0
                * (fun q => q) ((garch_variances (fun q => q)
                    ⟨true, 1/10, 17/20, 1/20⟩ [(1 : ℚ), 2]).getD t 0))
        ∧ (∀ t, 83 ≤ t → t < 100 →
            |(garch_variances (fun q => q) ⟨true, 1/10, 17/20, 1/20⟩
                (List.replicate 100 0)).getD t 0 - 1/3| < 1/1000000)) :=
  ⟨⟨rfl, by simp, by norm_num⟩,
   C3_garch_recursion_amended ⟨true, 1/10, 17/20, 1/20⟩ (fun q => q)
     [(1 : ℚ), 2] rfl (by simp) (by norm_num)⟩

-- =========================================================================
-- Concrete instantiations used by witnesses and counterexamples
-- =========================================================================

/-- A trivial random-source instance over `Unit`: every draw is 0,
`sqrt` is the identity.  Used to evaluate the pipeline at concrete
configurations. -/
def opsConst : RngOps Unit :=
  ⟨fun _ => (0, ()), fun _ _ _ => (0, ()), fun q => q⟩

/-- Concrete configuration with mean reversion enabled
(`theta = 0, mu = 1, sigma = 0`), `nper = 2` and the cumulative flag ON;
all other stages disabled (numeric fields at the Rust defaults). -/
def cfgOU : TimeseriesConfig :=
  ⟨2, 1, "B", some 0, 19/20, 1, 0, true, false, 5, 0,
   ⟨false, 2, 19/20, [1, 5/2]⟩, ⟨false, 1/100, 0, 1/20⟩,
   ⟨false, 1/10, 17/20, 1/20⟩, ⟨true, 0, 1, 0⟩,
   ⟨false, 3/2, 7/10, 13/10⟩, ⟨false, [], 5, 5, 1/50, 3/100⟩, false⟩

-- =========================================================================
-- Ornstein-Uhlenbeck refinement for C5
-- =========================================================================

/-- The first `n` standard-normal draws of a random source. -/
def normal_draws {σ : Type} (ops : RngOps σ) : Nat → σ → List ℚ
  | 0, _ => []
  | Nat.succ n, r =>
      let x := ops.normalSample 0 1 r
      x.1 :: normal_draws ops n x.2

/-- Modelled from the spec: the Euler-Maruyama discretization
`x += theta*(mu - x)*dt + sigma*sqrt(dt)*dW` with `dt = 1`, over a given
sequence of Brownian increments; `sqrtdt` stands for the computed
`sqrt(dt)`. -/
def em_path_go (theta mu sigma sqrtdt : ℚ) : ℚ → List ℚ → List ℚ
  | _, [] => []
  | x, dw :: rest =>
      let x2 := x + theta * (mu - x) * 1 + sigma * sqrtdt * dw
      x2 :: em_path_go theta mu sigma sqrtdt x2 rest

/-- Modelled from the spec: the Euler-Maruyama path starting at
`x = mu`. -/
def em_path (theta mu sigma sqrtdt : ℚ) (dws : List ℚ) : List ℚ :=
  em_path_go theta mu sigma sqrtdt mu dws

theorem ou_go_em_path {σ : Type} (ops : RngOps σ) (theta mu sigma : ℚ) :
    ∀ (n : Nat) (x : ℚ) (r : σ),
      (ou_go ops theta mu sigma n x r).1
        = em_path_go theta mu sigma (ops.sqrtQ 1) x (normal_draws ops n r) := by
  intro n
  induction n with
  | zero => intro x r; rfl
  | succ m ih =>
      intro x r
      simp only [ou_go, normal_draws, em_path_go, ih]

/-- C5 counterexample: with mean reversion enabled
(`theta = 0, mu = 1, sigma = 0`, so the path is constantly 1),
`nper = 2` and the cumulative flag enabled, the pipeline returns the
raw Ornstein-Uhlenbeck path `[1, 1]`, not its running cumulative sum
`[1, 2]` as the claim's step-11 clause requires. -/
theorem C5_mean_reversion_counterexample :
    make_time_series_values opsConst cfgOU () = .ok ([1, 1], ())
      ∧ cfgOU.cumulative = true
      ∧ cumsum [(1 : ℚ), 1] = [1, 2]
      ∧ ([(1 : ℚ), 1] : List ℚ) ≠ [1, 2] := by
  refine ⟨?_, rfl, ?_, ?_⟩
  · norm_num [make_time_series_values, cfgOU, generate_ornstein_uhlenbeck,
      ou_go, opsConst]
  · show cumsum_go 0 [(1 : ℚ), 1] = [1, 2]
    norm_num [cumsum_go]
  · simp

/-- C5 (amended): whenever mean reversion is enabled, pipeline steps 1-7
are skipped and the column is exactly the raw Ornstein-Uhlenbeck path
produced by the Euler-Maruyama recurrence
`x += theta*(mu - x)*dt + sigma*sqrt(dt)*dW` with `dt = 1`, starting at
`x = mu` — and this path is returned as-is: neither the event-window
pass nor the cumulative-sum transform of step 11 is applied, even when
the cumulative flag is enabled. -/
theorem C5_mean_reversion_amended {σ : Type} (ops : RngOps σ)
    (cfg : TimeseriesConfig) (r : σ)
    (h : cfg.mean_reversion.enable = true) :
    make_time_series_values ops cfg r
        = .ok (generate_ornstein_uhlenbeck ops cfg.nper cfg.mean_reversion r)
      ∧ (generate_ornstein_uhlenbeck ops cfg.nper cfg.mean_reversion r).1
        = em_path cfg.mean_reversion.theta cfg.mean_reversion.mu
            cfg.mean_reversion.sigma (ops.sqrtQ 1)
            (normal_draws ops cfg.nper r) := by
  constructor
  · unfold make_time_series_values
    rw [if_pos h]
  · unfold generate_ornstein_uhlenbeck em_path
    exact ou_go_em_path ops _ _ _ cfg.nper _ r

/-- C5 (amended) witness at a concrete instantiation. -/
theorem C5_mean_reversion_amended_witness :
    cfgOU.mean_reversion.enable = true
      ∧ (make_time_series_values opsConst cfgOU ()
          = .ok (generate_ornstein_uhlenbeck opsConst cfgOU.nper
              cfgOU.mean_reversion ())
        ∧ (generate_ornstein_uhlenbeck opsConst cfgOU.nper
            cfgOU.mean_reversion ()).1
          = em_path cfgOU.mean_reversion.theta cfgOU.mean_reversion.mu
              cfgOU.mean_reversion.sigma (opsConst.sqrtQ 1)
              (normal_draws opsConst cfgOU.nper ())) :=
  ⟨rfl, C5_mean_reversion_amended opsConst cfgOU () rfl⟩

-- =========================================================================
-- Event-window lemmas for C9
-- =========================================================================

theorem event_window_go_length {σ : Type} (ops : RngOps σ) (mean sd : ℚ)
    (e sIdx eIdx : Nat) :
    ∀ (l : List ℚ) (i0 : Nat) (r : σ),
      ((event_window_go ops mean sd e sIdx eIdx l i0 r).1).length
        = l.length := by
  intro l
  induction l with
  | nil => intro i0 r; rfl
  | cons v vs ih =>
      intro i0 r
      by_cases hc : sIdx ≤ i0 ∧ i0 < eIdx
      · simp [event_window_go, hc, ih]
      · simp [event_window_go, hc, ih]

theorem event_window_go_frame {σ : Type} (ops : RngOps σ) (mean sd : ℚ)
    (e sIdx eIdx : Nat) :
    ∀ (l : List ℚ) (i0 : Nat) (r : σ) (k : Nat),
      ¬(sIdx ≤ i0 + k ∧ i0 + k < eIdx) →
      ((event_window_go ops mean sd e sIdx eIdx l i0 r).1).getD k 0
        = l.getD k 0 := by
  intro l
  induction l with
  | nil => intro i0 r k _; rfl
  | cons v vs ih =>
      intro i0 r k hk
      cases k with
      | zero =>
          have hc : ¬(sIdx ≤ i0 ∧ i0 < eIdx) := by simpa using hk
          simp [event_window_go, hc]
      | succ m =>
          by_cases hc : sIdx ≤ i0 ∧ i0 < eIdx
          · simp only [event_window_go, if_pos hc, List.getD_cons_succ]
            exact ih (i0 + 1) _ m (by omega)
          · simp only [event_window_go, if_neg hc, List.getD_cons_succ]
            exact ih (i0 + 1) _ m (by omega)

theorem event_fold_frame {σ : Type} (ops : RngOps σ) (mean sd : ℚ)
    (pre post : Nat) :
    ∀ (es : List Nat) (acc : List ℚ × σ),
      ((es.foldl (fun acc e =>
          event_window_go ops mean sd e (e - pre)
            (min (e + post + 1) acc.1.length) acc.1 0 acc.2) acc).1).length
        = acc.1.length
      ∧ ∀ i, (∀ e ∈ es, i < e - pre ∨ e + post < i) →
          ((es.foldl (fun acc e =>
              event_window_go ops mean sd e (e - pre)
                (min (e + post + 1) acc.1.length) acc.1 0 acc.2) acc).1).getD i 0
            = acc.1.getD i 0 := by
  intro es
  induction es with
  | nil => intro acc; exact ⟨rfl, fun i _ => rfl⟩
  | cons e es ih =>
      intro acc
      rw [List.foldl_cons]
      have hlen := event_window_go_length ops mean sd e (e - pre)
        (min (e + post + 1) acc.1.length) acc.1 0 acc.2
      obtain ⟨ihl, ihd⟩ := ih (event_window_go ops mean sd e (e - pre)
        (min (e + post + 1) acc.1.length) acc.1 0 acc.2)
      constructor
      · rw [ihl, hlen]
      · intro i hout
        have hi := hout e (by simp)
        have hrest : ∀ e2 ∈ es, i < e2 - pre ∨ e2 + post < i := by
          intro e2 he2
          exact hout e2 (by simp [he2])
        rw [ihd i hrest]
        exact event_window_go_frame ops mean sd e (e - pre)
          (min (e + post + 1) acc.1.length) acc.1 0 acc.2 i (by omega)

/-- C9: the event-window pass modifies only indices inside some
configured window `[event - pre, event + post]` (clamped to the series
bounds): on any successful run, the output has the input's length and
agrees with the input at every index outside all configured windows;
when the pass is disabled or `event_indices` is empty, the series and
the random state are returned entirely unchanged. -/
theorem C9_event_window_frame {σ : Type} (ops : RngOps σ)
    (c : EventWindowConfig) (values : List ℚ) (r : σ) (out : List ℚ)
    (r2 : σ) (h : apply_event_windows ops c values r = .ok (out, r2)) :
    out.length = values.length
      ∧ (∀ i, (∀ e ∈ c.event_indices,
            i < e - c.pre_event_window ∨ e + c.post_event_window < i) →
          out.getD i 0 = values.getD i 0)
      ∧ ((c.enable = false ∨ c.event_indices = []) →
          out = values ∧ r2 = r) := by
  by_cases hg : c.enable = false ∨ c.event_indices = []
  · rw [apply_event_windows, if_pos hg] at h
    have hpair : values = out ∧ r = r2 := by
      simpa using h
    obtain ⟨h1, h2⟩ := hpair
    subst h1
    subst h2
    exact ⟨rfl, fun i _ => rfl, fun _ => ⟨rfl, rfl⟩⟩
  · rw [apply_event_windows, if_neg hg] at h
    rcases hnn : normalNew c.abnormal_return_mean c.abnormal_return_stddev
      with e | p
    · rw [hnn] at h
      exact absurd h (by simp)
    · rw [hnn] at h
      have hfold : (c.event_indices.foldl (fun acc e =>
          event_window_go ops p.1 p.2 e (e - c.pre_event_window)
            (min (e + c.post_event_window + 1) acc.1.length)
            acc.1 0 acc.2) (values, r)) = (out, r2) := by
        simpa using h
      obtain ⟨hL, hD⟩ := event_fold_frame ops p.1 p.2 c.pre_event_window
        c.post_event_window c.event_indices (values, r)
      rw [hfold] at hL hD
      exact ⟨hL, hD, fun hcontra => absurd hcontra hg⟩

/-- C9 witness at a concrete instantiation (with the constant-zero draw
source, the in-window additions are zero, so the output equals the
input). -/
theorem C9_event_window_frame_witness :
    apply_event_windows opsConst ⟨true, [3], 1, 1, 0, 1/2⟩
        [(1 : ℚ), 2, 3, 4, 5] () = .ok ([(1 : ℚ), 2, 3, 4, 5], ())
      ∧ (([(1 : ℚ), 2, 3, 4, 5] : List ℚ).length
          = ([(1 : ℚ), 2, 3, 4, 5] : List ℚ).length
        ∧ (∀ i, (∀ e ∈ [3], i < e - 1 ∨ e + 1 < i) →
            ([(1 : ℚ), 2, 3, 4, 5] : List ℚ).getD i 0
              = ([(1 : ℚ), 2, 3, 4, 5] : List ℚ).getD i 0)
        ∧ ((false = false ∨ ([3] : List Nat) = []) →
            ([(1 : ℚ), 2, 3, 4, 5] : List ℚ) = [(1 : ℚ), 2, 3, 4, 5]
              ∧ () = ())) := by
  have h : apply_event_windows opsConst ⟨true, [3], 1, 1, 0, 1/2⟩
      [(1 : ℚ), 2, 3, 4, 5] () = .ok ([(1 : ℚ), 2, 3, 4, 5], ()) := by
    norm_num [apply_event_windows, normalNew, event_window_go, opsConst]
  refine ⟨h, ?_⟩
  have hall := C9_event_window_frame opsConst ⟨true, [3], 1, 1, 0, 1/2⟩
    [(1 : ℚ), 2, 3, 4, 5] () [(1 : ℚ), 2, 3, 4, 5] () h
  simpa using hall

-- =========================================================================
-- Spec-side metric formulas and lemmas for C8
-- =========================================================================

/-- Mean of a return series, as the claim words it. -/
noncomputable def mean_of (l : List ℝ) : ℝ := l.sum / l.length

/-- Sample variance with the `n - 1` denominator, as the claim words
it. -/
noncomputable def sample_variance (l : List ℝ) : ℝ :=
  (l.map (fun r => (r - mean_of l) ^ 2)).sum / ((l.length : ℝ) - 1)

/-- Covariance with the `n - 1` denominator, as the claim words it. -/
noncomputable def covariance_of (l m : List ℝ) : ℝ :=
  (List.zipWith (fun a b => (a - mean_of l) * (b - mean_of m)) l m).sum
    / ((l.length : ℝ) - 1)

theorem var_code_eq (l : List ℝ) (hne : l ≠ []) :
    (l.map (fun r => (r - l.sum / (l.length : ℝ)) ^ 2)).sum
        / max ((l.length : ℝ) - 1) 1
      = sample_variance l := by
  cases l with
  | nil => exact absurd rfl hne
  | cons a as =>
      cases as with
      | nil =>
          unfold sample_variance mean_of
          simp
      | cons b bs =>
          have h1 : (1 : ℝ) ≤ ((a :: b :: bs).length : ℝ) - 1 := by
            simp only [List.length_cons]
            push_cast
            linarith [Nat.cast_nonneg (α := ℝ) bs.length]
          unfold sample_variance mean_of
          rw [max_eq_left h1]

theorem sample_variance_nonneg (l : List ℝ) : 0 ≤ sample_variance l := by
  unfold sample_variance
  rcases l with _ | ⟨a, _ | ⟨b, bs⟩⟩
  · simp
  · simp
  · apply div_nonneg
    · apply List.sum_nonneg
      intro x hx
      obtain ⟨r, _, rfl⟩ := List.mem_map.mp hx
      positivity
    · simp only [List.length_cons]
      push_cast
      linarith [Nat.cast_nonneg (α := ℝ) bs.length]

theorem sample_variance_singleton (x : ℝ) : sample_variance [x] = 0 := by
  unfold sample_variance mean_of
  simp

/-- C8: for every non-empty return series, `calculate_financial_metrics`
computes the sample variance with the `n - 1` denominator, volatility
`sqrt(variance * 252)`, a Sharpe ratio of
`(mean - riskFree/252) / sqrt(variance) * sqrt(252)` when the variance
is positive and exactly 0 when it is zero; with a market series of equal
length, beta is `covariance / marketVariance`, defaulting to 1.0 when
the market variance is zero. -/
theorem C8_financial_metrics (returns market : List ℝ) (risk_free : ℝ)
    (hne : returns ≠ []) :
    (calculate_financial_metrics returns (some market) risk_free).volatility
        = Real.sqrt (sample_variance returns * 252)
      ∧ (0 < sample_variance returns →
          (calculate_financial_metrics returns (some market) risk_free).sharpe
            = (mean_of returns - risk_free / 252)
              / Real.sqrt (sample_variance returns) * Real.sqrt 252)
      ∧ (sample_variance returns = 0 →
          (calculate_financial_metrics returns (some market) risk_free).sharpe
            = 0)
      ∧ (market.length = returns.length →
          (sample_variance market ≠ 0 →
            (calculate_financial_metrics returns (some market) risk_free).beta
              = covariance_of returns market / sample_variance market)
          ∧ (sample_variance market = 0 →
            (calculate_financial_metrics returns (some market) risk_free).beta
              = 1)) := by
  cases returns with
  | nil => exact absurd rfl hne
  | cons a as =>
      have hvar := var_code_eq (a :: as) (by simp)
      refine ⟨?_, ?_, ?_, ?_⟩
      · simp only [calculate_financial_metrics]
        rw [hvar]
        exact (Real.sqrt_mul (sample_variance_nonneg (a :: as)) 252).symm
      · intro hv
        simp only [calculate_financial_metrics]
        rw [hvar, if_pos hv]
        rfl
      · intro hz
        simp only [calculate_financial_metrics]
        rw [hvar, hz]
        simp
      · intro hlen
        by_cases hgt : 1 < market.length
        · have hmne : market ≠ [] := by
            cases market with
            | nil => simp at hgt
            | cons x xs => simp
          have hmv := var_code_eq market hmne
          constructor
          · intro hne0
            have hpos : 0 < sample_variance market :=
              lt_of_le_of_ne (sample_variance_nonneg market)
                (Ne.symm hne0)
            simp only [calculate_financial_metrics]
            rw [if_pos ⟨hlen, hgt⟩]
            rw [← hlen, hmv, if_pos hpos]
            simp [covariance_of, mean_of, hlen]
          · intro hz
            simp only [calculate_financial_metrics]
            rw [if_pos ⟨hlen, hgt⟩]
            rw [← hlen, hmv, hz]
            simp
        · have hone : market.length = 1 := by
            have h1 : 1 ≤ (a :: as).length := by simp
            omega
          obtain ⟨y, hy⟩ := List.length_eq_one.mp hone
          constructor
          · intro hne0
            exact absurd (by rw [hy]; exact sample_variance_singleton y) hne0
          · intro _
            simp only [calculate_financial_metrics]
            rw [if_neg (by intro hcon; exact hgt hcon.2)]

/-- C8 witness at a concrete instantiation. -/
theorem C8_financial_metrics_witness :
    ([(0 : ℝ), 2] ≠ [])
      ∧ ((calculate_financial_metrics [(0 : ℝ), 2] (some [(0 : ℝ), 4])
            0).volatility
          = Real.sqrt (sample_variance [(0 : ℝ), 2] * 252)
        ∧ (0 < sample_variance [(0 : ℝ), 2] →
            (calculate_financial_metrics [(0 : ℝ), 2] (some [(0 : ℝ), 4])
                0).sharpe
              = (mean_of [(0 : ℝ), 2] - 0 / 252)
                / Real.sqrt (sample_variance [(0 : ℝ), 2]) * Real.sqrt 252)
        ∧ (sample_variance [(0 : ℝ), 2] = 0 →
            (calculate_financial_metrics [(0 : ℝ), 2] (some [(0 : ℝ), 4])
                0).sharpe = 0)
        ∧ (([(0 : ℝ), 4] : List ℝ).length = ([(0 : ℝ), 2] : List ℝ).length →
            (sample_variance [(0 : ℝ), 4] ≠ 0 →
              (calculate_financial_metrics [(0 : ℝ), 2] (some [(0 : ℝ), 4])
                  0).beta
                = covariance_of [(0 : ℝ), 2] [(0 : ℝ), 4]
                  / sample_variance [(0 : ℝ), 4])
            ∧ (sample_variance [(0 : ℝ), 4] = 0 →
              (calculate_financial_metrics [(0 : ℝ), 2] (some [(0 : ℝ), 4])
                  0).beta = 1))) :=
  ⟨by simp, C8_financial_metrics [(0 : ℝ), 2] [(0 : ℝ), 4] 0 (by simp)⟩

-- =========================================================================
-- Totality (no-panic) lemmas for C4
-- =========================================================================

theorem normalNew_ok (mean sd : ℚ) :
    normalNew mean sd = .ok (mean, sd) := rfl

theorem sample_innovation_ok {σ : Type} (ops : RngOps σ) (sigma : ℚ)
    (uft : Bool) (df : ℚ) (r : σ) :
    ∃ p, sample_innovation ops sigma uft df r = .ok p := by
  by_cases hft : uft = true ∧ 2 < df
  · rw [sample_innovation, if_pos hft]
    exact ⟨_, rfl⟩
  · rw [sample_innovation, if_neg hft, normalNew_ok 0 sigma]
    exact ⟨_, rfl⟩

theorem innov_loop_ok {σ : Type} (ops : RngOps σ) (cfg : TimeseriesConfig) :
    ∀ (n i : Nat) (chain : Option MarkovChain) (creg : Nat) (r : σ),
      ∃ out, innov_loop ops cfg i n chain creg r = .ok out := by
  intro n
  induction n with
  | zero => intro i chain creg r; exact ⟨_, rfl⟩
  | succ m ih =>
      intro i chain creg r
      obtain ⟨p1, hp1⟩ := sample_innovation_ok ops
        (cfg.sigma * regime_vol_mult cfg.regimes
            (regime_step ops chain creg r).2.1
          * get_intraday_volatility_mult i cfg.nper cfg.intraday)
        cfg.use_fat_tails cfg.degrees_freedom
        (regime_step ops chain creg r).2.2
      by_cases hj : cfg.jumps.enable = true
      · by_cases hu : (ops.genF p1.2).1 < cfg.jumps.jump_probability
        · obtain ⟨p2, hp2⟩ := ih (i + 1) (regime_step ops chain creg r).1
            (regime_step ops chain creg r).2.1
            (ops.normalSample cfg.jumps.jump_mean cfg.jumps.jump_stddev
              (ops.genF p1.2).2).2
          exact ⟨_, by
            simp only [innov_loop, hp1, hj, if_pos hu, if_true,
              normalNew_ok, pure, Except.pure, bind, Except.bind, hp2]
            rfl⟩
        · obtain ⟨p2, hp2⟩ := ih (i + 1) (regime_step ops chain creg r).1
            (regime_step ops chain creg r).2.1 (ops.genF p1.2).2
          exact ⟨_, by
            simp only [innov_loop, hp1, hj, if_neg hu, if_true, pure,
              Except.pure, bind, Except.bind, hp2]
            rfl⟩
      · obtain ⟨p2, hp2⟩ := ih (i + 1) (regime_step ops chain creg r).1
          (regime_step ops chain creg r).2.1 p1.2
        have hjf : cfg.jumps.enable = false := by
          cases hx : cfg.jumps.enable
          · rfl
          · exact absurd hx hj
        exact ⟨_, by
          simp only [innov_loop, hp1, hjf, Bool.false_eq_true, if_false, pure,
            Except.pure, bind, Except.bind, hp2]
          rfl⟩

theorem apply_event_windows_ok {σ : Type} (ops : RngOps σ)
    (c : EventWindowConfig) (values : List ℚ) (r : σ) :
    ∃ out, apply_event_windows ops c values r = .ok out := by
  by_cases hg : c.enable = false ∨ c.event_indices = []
  · rw [apply_event_windows, if_pos hg]
    exact ⟨_, rfl⟩
  · rw [apply_event_windows, if_neg hg, normalNew_ok]
    exact ⟨_, rfl⟩

theorem AR1_new_sigma_one (phi : ℚ) : AR1.new phi 1 0 = .ok ⟨phi, 1, 0⟩ := by
  rw [AR1.new, if_neg (by norm_num)]

theorem make_time_series_values_ok {σ : Type} (ops : RngOps σ)
    (cfg : TimeseriesConfig) :
    ∀ r : σ, ∃ out, make_time_series_values ops cfg r = .ok out := by
  intro r
  by_cases hmr : cfg.mean_reversion.enable = true
  · rw [make_time_series_values, if_pos hmr]
    exact ⟨_, rfl⟩
  · obtain ⟨p1, hp1⟩ := innov_loop_ok ops cfg cfg.nper 0
      (create_regime_chain cfg.regimes) 0 r
    obtain ⟨p2, hp2⟩ := apply_event_windows_ok ops cfg.event_windows
      (List.zipWith
        (fun inn ar => inn * (1 - |cfg.ar_phi|) + ar * |cfg.ar_phi|)
        (apply_garch_volatility ops.sqrtQ cfg.garch p1.1)
        (AR1.sample_n ops ⟨cfg.ar_phi, 1, 0⟩ p1.2 cfg.nper).1)
      (AR1.sample_n ops ⟨cfg.ar_phi, 1, 0⟩ p1.2 cfg.nper).2
    cases hcum : cfg.cumulative
    · exact ⟨_, by
        simp only [make_time_series_values, if_neg hmr, hp1, pure,
          Except.pure, bind, Except.bind, AR1_new_sigma_one, hp2, hcum,
          Bool.false_eq_true, if_false]
        rfl⟩
    · exact ⟨_, by
        simp only [make_time_series_values, if_neg hmr, hp1, pure,
          Except.pure, bind, Except.bind, AR1_new_sigma_one, hp2, hcum,
          if_true]
        rfl⟩

theorem ts_cols_loop_ok {σ : Type} (ops : RngOps σ)
    (cfg : TimeseriesConfig) (common : List ℚ) :
    ∀ (cols : List Char) (colIdx : Nat) (market : Option (List ℝ)) (r : σ),
      ∃ out, ts_cols_loop ops cfg common cols colIdx market r = .ok out := by
  intro cols
  induction cols with
  | nil => intro colIdx market r; exact ⟨_, rfl⟩
  | cons c cs ih =>
      intro colIdx market r
      obtain ⟨p1, hp1⟩ := make_time_series_values_ok ops cfg r
      cases hcm : cfg.compute_metrics
      · obtain ⟨p2, hp2⟩ := ih (colIdx + 1) market p1.2
        exact ⟨_, by
          simp only [ts_cols_loop, hp1, hcm, Bool.false_eq_true, if_false,
            pure, Except.pure, bind, Except.bind, hp2]
          rfl⟩
      · obtain ⟨p2, hp2⟩ := ih (colIdx + 1)
          (if colIdx = 0 then
            some ((returns_of cfg
              (if 0 < cfg.cross_correlation ∧ common ≠ [] then
                List.zipWith
                  (fun v f => (1 - ops.sqrtQ cfg.cross_correlation) * v
                    + ops.sqrtQ cfg.cross_correlation * f) p1.1 common
              else p1.1)).map Rat.cast)
          else market) p1.2
        exact ⟨_, by
          simp only [ts_cols_loop, hp1, hcm, if_true, pure, Except.pure,
            bind, Except.bind, hp2]
          rfl⟩

/-- Concrete configuration with a negative scale parameter
(`sigma = -1`), fat tails disabled, every optional stage disabled,
`nper = 1`, `ncol = 1`. -/
def cfgNegSigma : TimeseriesConfig :=
  ⟨1, 1, "B", some 0, 19/20, -1, 0, false, false, 5, 0,
   ⟨false, 2, 19/20, [1, 5/2]⟩, ⟨false, 1/100, 0, 1/20⟩,
   ⟨false, 1/10, 17/20, 1/20⟩, ⟨false, 3/20, 0, 1/5⟩,
   ⟨false, 3/2, 7/10, 13/10⟩, ⟨false, [], 5, 5, 1/50, 3/100⟩, false⟩

/-- C4 counterexample: nothing detects the configuration errors the
claim says are "detected eagerly at construction": `TimeseriesConfig`
is a plain struct with no validating constructor, and on `cfgNegSigma`
(`sigma = -1`, fat tails disabled) generation runs to completion and
returns a column — rand_distr 0.4's `Normal::new` accepts a negative
finite standard deviation — so the negative scale parameter is neither
detected at construction nor surfaced at any point of generation. -/
theorem C4_no_detection_counterexample :
    cfgNegSigma.sigma < 0
      ∧ get_time_series_with_config opsConst (fun _ => ()) () cfgNegSigma
        = .ok ([⟨'A', [0]⟩], none) := by
  constructor
  · norm_num [cfgNegSigma]
  · with_unfolding_all rfl

/-- C4 (amended): no configuration validation happens at construction —
`TimeseriesConfig` is a plain struct — and none happens during
generation either: negative scale parameters are accepted by
rand_distr 0.4's `Normal::new` (which rejects only non-finite values)
and degenerate GARCH parameters (`alpha + beta >= 1`) are never
checked.  What survives of the claim is totality: once called,
`get_time_series_with_config` always terminates and never raises, for
every configuration. -/
theorem C4_no_panic_amended {σ : Type} (ops : RngOps σ) (mkR : Nat → σ)
    (ent : σ) (cfg : TimeseriesConfig) :
    ∃ out, get_time_series_with_config ops mkR ent cfg = .ok out := by
  by_cases hcc : 0 < cfg.cross_correlation
  · obtain ⟨p1, hp1⟩ := make_time_series_values_ok ops cfg
      (match cfg.seed with
        | some s => mkR s
        | none => ent)
    obtain ⟨p2, hp2⟩ := ts_cols_loop_ok ops cfg p1.1
      (get_cols cfg.ncol) 0 none p1.2
    exact ⟨_, by
      simp only [get_time_series_with_config, hcc, if_true, pure,
        Except.pure, bind, Except.bind, hp1, hp2]
      rfl⟩
  · obtain ⟨p2, hp2⟩ := ts_cols_loop_ok ops cfg []
      (get_cols cfg.ncol) 0 none
      (match cfg.seed with
        | some s => mkR s
        | none => ent)
    exact ⟨_, by
      simp only [get_time_series_with_config, hcc, if_false, pure,
        Except.pure, bind, Except.bind, hp2]
      rfl⟩
